import Mathlib

/-! # MPVKit.c — the forced-link shim of LocalMPVKit

The repository's only source file is

```c
extern void vkCreateMetalSurfaceEXT(void);

__attribute__((used)) static void* _flux_force_link_moltenvk = (void*)vkCreateMetalSurfaceEXT;
```

The file has no run-time behaviour; what can be said about it is said about
its declarations.  The development below therefore embeds the translation
unit as a value of a small abstract syntax of C file-scope declarations, and
defines, for every translation unit of that syntax, the analyses the
properties are about: linkage, the symbols a unit defines, the reference
graph, reachability from roots, address constants, and the ways an identifier
is used.
-/

namespace Flux

/-! ## Abstract syntax -/

/-- Object types of the fragment: `void`, a named type, a `const`-qualified
type, a pointer. -/
inductive CType where
  | void
  | named (name : String)
  | const (t : CType)
  | ptr (t : CType)
  deriving DecidableEq, Repr

/-- Function type: return type and parameter types; the parameter list
`(void)` is the empty list. -/
structure FunSig where
  ret : CType
  params : List CType
  deriving DecidableEq, Repr

/-- Expressions of the fragment. -/
inductive Expr where
  | ident (name : String)
  | intLit (n : Int)
  | cast (ty : CType) (e : Expr)
  | addrOf (e : Expr)
  | deref (e : Expr)
  | assign (lhs rhs : Expr)
  | call (callee : Expr) (args : List Expr)
  deriving Repr

/-- Statements of a function body. -/
inductive Stmt where
  | expr (e : Expr)
  | ret (e : Option Expr)
  deriving Repr

/-- Storage-class specifier of a file-scope declaration: none written,
`extern`, or `static`. -/
inductive StorageClass where
  | scNone
  | scExtern
  | scStatic
  deriving DecidableEq, Repr

/-- Attributes written as `__attribute__((...))`. -/
inductive Attr where
  | used
  | unused
  | weak
  deriving DecidableEq, Repr

/-- File-scope declarations: of a function (a definition when it has a body)
and of a variable. -/
inductive Decl where
  | func (sc : StorageClass) (attrs : List Attr) (name : String) (sig : FunSig)
      (body : Option (List Stmt))
  | var (sc : StorageClass) (attrs : List Attr) (ty : CType) (name : String)
      (init : Option Expr)
  deriving Repr

/-- A translation unit is the sequence of its file-scope declarations. -/
abbrev TranslationUnit := List Decl

/-! ## The source file -/

/-- Line 5: `extern void vkCreateMetalSurfaceEXT(void);` -/
def vkCreateMetalSurfaceEXT : Decl :=
  .func .scExtern [] "vkCreateMetalSurfaceEXT" ⟨.void, []⟩ none

/-- Line 7: `__attribute__((used)) static void* _flux_force_link_moltenvk =
(void*)vkCreateMetalSurfaceEXT;` -/
def _flux_force_link_moltenvk : Decl :=
  .var .scStatic [.used] (.ptr .void) "_flux_force_link_moltenvk"
    (some (.cast (.ptr .void) (.ident "vkCreateMetalSurfaceEXT")))

/-- The translation unit `MPVKit.c`: lines 1 to 3 are comments, lines 4 and 6
are blank. -/
def MPVKit_c : TranslationUnit :=
  [vkCreateMetalSurfaceEXT, _flux_force_link_moltenvk]

/-! ## Declarations, definitions, linkage -/

namespace Decl

/-- Declared identifier. -/
def name : Decl → String
  | .func _ _ n _ _ => n
  | .var _ _ _ n _ => n

/-- Storage-class specifier. -/
def storage : Decl → StorageClass
  | .func sc _ _ _ _ => sc
  | .var sc _ _ _ _ => sc

/-- Attribute list. -/
def attrs : Decl → List Attr
  | .func _ as _ _ _ => as
  | .var _ as _ _ _ => as

/-- Whether the declaration declares a function. -/
def isFunction : Decl → Bool
  | .func .. => true
  | .var .. => false

/-- Whether the declaration is a definition: a function with a body; a
variable with an initialiser, or without `extern` (a tentative definition). -/
def isDefinition : Decl → Bool
  | .func _ _ _ _ body => body.isSome
  | .var sc _ _ _ init => init.isSome || sc != .scExtern

/-- Whether the declared identifier has internal linkage (`static`). -/
def isInternal (d : Decl) : Bool := d.storage == .scStatic

/-- Whether the declaration carries `__attribute__((used))`. -/
def isUsed (d : Decl) : Bool := d.attrs.contains .used

end Decl

/-! ## Expressions -/

namespace Expr

/-- Identifiers occurring in an expression, in source order. -/
def idents : Expr → List String
  | .ident n => [n]
  | .intLit _ => []
  | .cast _ e => idents e
  | .addrOf e => idents e
  | .deref e => idents e
  | .assign l r => idents l ++ idents r
  | .call f args => idents f ++ identsList args
where
  /-- Identifiers of an argument list. -/
  identsList : List Expr → List String
    | [] => []
    | a :: as => idents a ++ identsList as

/-- Number of call expressions in an expression. -/
def calls : Expr → Nat
  | .ident _ => 0
  | .intLit _ => 0
  | .cast _ e => calls e
  | .addrOf e => calls e
  | .deref e => calls e
  | .assign l r => calls l + calls r
  | .call f args => 1 + calls f + callsList args
where
  /-- Number of call expressions in an argument list. -/
  callsList : List Expr → Nat
    | [] => 0
    | a :: as => calls a + callsList as

/-- The ways an identifier can occur in an expression. -/
inductive Use where
  /-- Callee of a call expression: `f(...)`. -/
  | called
  /-- Operand of unary `*`. -/
  | dereferenced
  /-- Left operand of `=`. -/
  | assigned
  /-- Operand of unary `&`. -/
  | addressed
  /-- Any other occurrence: the value of an object is read, a function
  designator is converted to the function's address. -/
  | value
  deriving DecidableEq, Repr

/-- The uses of identifier `x` in an expression, in source order. -/
def usesOf (x : String) : Expr → List Use
  | .ident n => if n = x then [.value] else []
  | .intLit _ => []
  | .cast _ e => usesOf x e
  | .addrOf (.ident n) => if n = x then [.addressed] else []
  | .addrOf e => usesOf x e
  | .deref (.ident n) => if n = x then [.dereferenced] else []
  | .deref e => usesOf x e
  | .assign (.ident n) r => (if n = x then [.assigned] else []) ++ usesOf x r
  | .assign l r => usesOf x l ++ usesOf x r
  | .call (.ident n) args => (if n = x then [.called] else []) ++ usesOfList x args
  | .call f args => usesOf x f ++ usesOfList x args
where
  /-- The uses of `x` in an argument list. -/
  usesOfList (x : String) : List Expr → List Use
    | [] => []
    | a :: as => usesOf x a ++ usesOfList x as

end Expr

namespace Stmt

/-- The expressions of a statement. -/
def exprs : Stmt → List Expr
  | .expr e => [e]
  | .ret e => e.toList

end Stmt

namespace Decl

/-- The statements a declaration holds: the body of a function definition. -/
def stmts : Decl → List Stmt
  | .func _ _ _ _ body => body.getD []
  | .var .. => []

/-- The expressions a declaration holds: those of a function body, the
initialiser of a variable. -/
def exprs : Decl → List Expr
  | .func _ _ _ _ body => ((body.getD []).map Stmt.exprs).flatten
  | .var _ _ _ _ init => init.toList

/-- The identifiers a declaration refers to. -/
def refs (d : Decl) : List String := (d.exprs.map Expr.idents).flatten

/-- The declaration with attribute `a` removed. -/
def withoutAttr (a : Attr) : Decl → Decl
  | .func sc as n sig body => .func sc (as.filter (· != a)) n sig body
  | .var sc as ty n init => .var sc (as.filter (· != a)) ty n init

end Decl

/-! ## Symbols of a translation unit -/

namespace TranslationUnit

/-- The names declared as functions. -/
def declaredFunctions (tu : TranslationUnit) : List String :=
  (tu.filter Decl.isFunction).map Decl.name

/-- The names the unit defines. -/
def definedSymbols (tu : TranslationUnit) : List String :=
  (tu.filter Decl.isDefinition).map Decl.name

/-- The functions the unit defines. -/
def definedFunctions (tu : TranslationUnit) : List String :=
  (tu.filter fun d => d.isFunction && d.isDefinition).map Decl.name

/-- The variables the unit defines. -/
def definedVariables (tu : TranslationUnit) : List String :=
  (tu.filter fun d => !d.isFunction && d.isDefinition).map Decl.name

/-- Whether name `n` has internal linkage in the unit: one of its
declarations is `static`. -/
def isInternalSym (tu : TranslationUnit) (n : String) : Bool :=
  tu.any fun d => d.name == n && d.isInternal

/-- The externally visible symbols the unit defines: defined names with
external linkage. -/
def exportedSymbols (tu : TranslationUnit) : List String :=
  (tu.definedSymbols).filter fun n => !tu.isInternalSym n

/-- Reference edges: a definition refers to every identifier of its body or
initialiser. -/
def referenceEdges (tu : TranslationUnit) : List (String × String) :=
  ((tu.filter Decl.isDefinition).map fun d => d.refs.map fun r => (d.name, r)).flatten

/-- Roots of the unit for dead-code elimination: the defined symbols that are
externally visible or marked `used`. -/
def roots (tu : TranslationUnit) : List String :=
  (tu.filter fun d => d.isDefinition && (d.isUsed || !tu.isInternalSym d.name)).map Decl.name

/-- The unit with attribute `a` removed from every declaration. -/
def withoutAttr (tu : TranslationUnit) (a : Attr) : TranslationUnit :=
  tu.map (Decl.withoutAttr a)

/-- All expressions of the unit, in source order. -/
def exprs (tu : TranslationUnit) : List Expr := (tu.map Decl.exprs).flatten

/-- All statements of function bodies of the unit. -/
def stmts (tu : TranslationUnit) : List Stmt := (tu.map Decl.stmts).flatten

/-- Number of call expressions in the unit. -/
def callCount (tu : TranslationUnit) : Nat := (tu.exprs.map Expr.calls).sum

/-- The uses of identifier `x` in the unit, in source order. -/
def usesOf (tu : TranslationUnit) (x : String) : List Expr.Use :=
  (tu.exprs.map (Expr.usesOf x)).flatten

/-- The prototype the unit declares for function `n`: that of its first
declaration. -/
def prototypeOf : TranslationUnit → String → Option FunSig
  | [], _ => none
  | .func _ _ m sig _ :: rest, n => if m = n then some sig else prototypeOf rest n
  | .var .. :: rest, n => prototypeOf rest n

end TranslationUnit

/-! ## Dead-code elimination

The model: a symbol is kept iff it is reachable through references from a
root, a root being an externally visible symbol, one marked `used`, or one of
the roots given by the rest of the program. -/

/-- Reachability through `edges` from the symbols of `roots`. -/
inductive Reachable (edges : List (String × String)) (roots : List String) : String → Prop where
  | root {s : String} : s ∈ roots → Reachable edges roots s
  | step {s t : String} : Reachable edges roots s → (s, t) ∈ edges → Reachable edges roots t

/-- One round of the closure: the symbols seen, then the targets of the edges
that leave them. -/
def expand (edges : List (String × String)) (seen : List String) : List String :=
  seen ++ (edges.filter fun e => e.1 ∈ seen).map Prod.snd

/-- The closure after the given number of rounds. -/
def closure (edges : List (String × String)) : Nat → List String → List String
  | 0, seen => seen
  | n + 1, seen => closure edges n (expand edges seen)

namespace TranslationUnit

/-- The symbols dead-code elimination keeps, given the roots `others` of the
rest of the program: the closure of the roots under the reference edges, run
for as many rounds as there are edges. -/
def keptSymbols (tu : TranslationUnit) (others : List String) : List String :=
  (closure tu.referenceEdges tu.referenceEdges.length (tu.roots ++ others)).dedup

/-- Whether dead-code elimination keeps symbol `s`. -/
def keeps (tu : TranslationUnit) (others : List String) (s : String) : Bool :=
  s ∈ tu.keptSymbols others

/-- The symbols that refer to `s`. -/
def referrers (tu : TranslationUnit) (s : String) : List String :=
  (tu.referenceEdges.filter fun e => e.2 = s).map Prod.fst

end TranslationUnit

/-! ## Constant initialisers -/

namespace TranslationUnit

/-- Whether the unit declares name `n`. -/
def declares (tu : TranslationUnit) (n : String) : Bool :=
  tu.any fun d => d.name == n

/-- Whether the unit declares name `n` as a function. -/
def declaresFunction (tu : TranslationUnit) (n : String) : Bool :=
  tu.any fun d => d.name == n && d.isFunction

end TranslationUnit

namespace Expr

/-- Arithmetic constant expressions of the fragment: an integer literal,
possibly cast to a named (non-pointer) type. -/
def isArithmeticConstant : Expr → Bool
  | .intLit _ => true
  | .cast (.named _) e => isArithmeticConstant e
  | _ => false

/-- Address constants, `scope` being the declarations in scope: a function
designator (converted to a pointer to the function), `&` applied to a
function or to a file-scope object, an integer constant cast to a pointer
type, and a cast of an address constant to a pointer type.  No call and no
read of an object is an address constant. -/
def isAddressConstant (scope : TranslationUnit) : Expr → Bool
  | .ident n => scope.declaresFunction n
  | .addrOf (.ident n) => scope.declares n
  | .cast (.ptr _) e => isAddressConstant scope e || e.isArithmeticConstant
  | _ => false

/-- Whether an expression can initialise an object of static storage
duration without code being run. -/
def isConstantInitialiser (scope : TranslationUnit) (e : Expr) : Bool :=
  e.isArithmeticConstant || e.isAddressConstant scope

end Expr

namespace Decl

/-- The initialiser of a variable declaration. -/
def initialiser : Decl → Option Expr
  | .func .. => none
  | .var _ _ _ _ init => init

/-- The declared type of a variable. -/
def varType : Decl → Option CType
  | .func .. => none
  | .var _ _ ty _ _ => some ty

end Decl

namespace CType

/-- Whether the type is a pointer type. -/
def isPointer : CType → Bool
  | .ptr _ => true
  | _ => false

end CType

namespace Expr

/-- The function or object whose address the expression denotes, through
casts: a plain designator or one under `&`. -/
def addressTarget : Expr → Option String
  | .ident n => some n
  | .addrOf (.ident n) => some n
  | .cast _ e => addressTarget e
  | _ => none

end Expr

namespace TranslationUnit

/-- The variables whose initialiser has to be computed when the program
starts. -/
def dynamicInitialisers (tu : TranslationUnit) : List String :=
  (tu.filter fun d => match d.initialiser with
    | some e => !e.isConstantInitialiser tu
    | none => false).map Decl.name

/-- The declaration of name `n`: the first one. -/
def lookup (tu : TranslationUnit) (n : String) : Option Decl :=
  tu.find? fun d => d.name == n

end TranslationUnit

/-- The prototype `vkCreateMetalSurfaceEXT` has in the Vulkan headers
(`vulkan_metal.h`), which are not part of this repository:
`VkResult vkCreateMetalSurfaceEXT(VkInstance, const VkMetalSurfaceCreateInfoEXT*,
const VkAllocationCallbacks*, VkSurfaceKHR*)`.  It is the instance at which
the difference from the prototype declared here is exhibited. -/
def vulkanPrototype : FunSig :=
  ⟨.named "VkResult",
    [.named "VkInstance",
     .ptr (.const (.named "VkMetalSurfaceCreateInfoEXT")),
     .ptr (.const (.named "VkAllocationCallbacks")),
     .ptr (.named "VkSurfaceKHR")]⟩

/-! ## The closure computes reachability -/

/-- A set of symbols is closed when no edge leaves it. -/
def Closed (edges : List (String × String)) (seen : List String) : Prop :=
  ∀ e ∈ edges, e.1 ∈ seen → e.2 ∈ seen

/-- The edges that leave the symbols seen. -/
def active (edges : List (String × String)) (seen : List String) : List (String × String) :=
  edges.filter fun e => e.1 ∈ seen

theorem subset_expand (edges : List (String × String)) (seen : List String) :
    seen ⊆ expand edges seen := by
  intro s hs
  exact List.mem_append_left _ hs

theorem target_mem_expand {edges : List (String × String)} {seen : List String}
    {e : String × String} (he : e ∈ edges) (hs : e.1 ∈ seen) : e.2 ∈ expand edges seen := by
  refine List.mem_append_right _ (List.mem_map.mpr ⟨e, ?_, rfl⟩)
  exact List.mem_filter.mpr ⟨he, by simpa using hs⟩

theorem mem_expand {edges : List (String × String)} {seen : List String} {t : String}
    (ht : t ∈ expand edges seen) : t ∈ seen ∨ ∃ s ∈ seen, (s, t) ∈ edges := by
  rcases List.mem_append.mp ht with h | h
  · exact Or.inl h
  · obtain ⟨e, he, rfl⟩ := List.mem_map.mp h
    have h2 := List.mem_filter.mp he
    exact Or.inr ⟨e.1, by simpa using h2.2, h2.1⟩

theorem subset_closure (edges : List (String × String)) (n : Nat) (seen : List String) :
    seen ⊆ closure edges n seen := by
  induction n generalizing seen with
  | zero => exact fun _ h => h
  | succ n ih => exact fun s hs => ih (expand edges seen) (subset_expand edges seen hs)

theorem Reachable.of_expand {edges : List (String × String)} {seen : List String} {s : String}
    (h : Reachable edges (expand edges seen) s) : Reachable edges seen s := by
  induction h with
  | root hr =>
    rcases mem_expand hr with h | ⟨u, hu, hedge⟩
    · exact .root h
    · exact .step (.root hu) hedge
  | step _ hedge ih => exact .step ih hedge

theorem reachable_of_mem_closure {edges : List (String × String)} (n : Nat) {seen : List String}
    {s : String} (h : s ∈ closure edges n seen) : Reachable edges seen s := by
  induction n generalizing seen with
  | zero => exact .root h
  | succ n ih => exact (ih h).of_expand

theorem Closed.expand {edges : List (String × String)} {seen : List String}
    (h : Closed edges seen) : Closed edges (expand edges seen) := by
  have back : ∀ t, t ∈ Flux.expand edges seen → t ∈ seen := by
    intro t ht
    rcases mem_expand ht with h1 | ⟨u, hu, hedge⟩
    · exact h1
    · exact h (u, t) hedge hu
  intro e he hs
  exact subset_expand edges seen (h e he (back _ hs))

theorem active_sublist (edges : List (String × String)) (seen : List String) :
    (active edges seen).Sublist (active edges (expand edges seen)) := by
  refine List.monotone_filter_right edges ?_
  intro e he
  have : e.1 ∈ seen := by simpa using he
  simpa using subset_expand edges seen this

theorem closed_expand_of_active_eq {edges : List (String × String)} {seen : List String}
    (h : active edges (expand edges seen) = active edges seen) :
    Closed edges (expand edges seen) := by
  intro e he hs
  have h1 : e ∈ active edges (expand edges seen) :=
    List.mem_filter.mpr ⟨he, by simpa using hs⟩
  rw [h] at h1
  have h2 : e.1 ∈ seen := by simpa using (List.mem_filter.mp h1).2
  exact target_mem_expand he h2

theorem closed_closure_aux (edges : List (String × String)) (n : Nat) (seen : List String)
    (h : Closed edges seen ∨ edges.length + 1 ≤ (active edges seen).length + n) :
    Closed edges (closure edges n seen) := by
  induction n generalizing seen with
  | zero =>
    rcases h with h | h
    · exact h
    · have := List.length_filter_le (fun e => decide (e.1 ∈ seen)) edges
      simp only [active] at h
      omega
  | succ n ih =>
    refine ih (expand edges seen) ?_
    rcases h with h | h
    · exact Or.inl h.expand
    · have hsub := active_sublist edges seen
      rcases Nat.lt_or_ge (active edges seen).length (active edges (expand edges seen)).length
        with hlt | hge
      · exact Or.inr (by omega)
      · have heq := hsub.eq_of_length (Nat.le_antisymm hsub.length_le hge)
        exact Or.inl (closed_expand_of_active_eq heq.symm)

theorem closed_closure (edges : List (String × String)) (seen : List String) :
    Closed edges (closure edges edges.length seen) := by
  refine closed_closure_aux edges edges.length seen ?_
  cases hact : active edges seen with
  | nil =>
    refine Or.inl ?_
    intro e he hs
    have : e ∈ active edges seen := List.mem_filter.mpr ⟨he, by simpa using hs⟩
    rw [hact] at this
    cases this
  | cons a l =>
    refine Or.inr ?_
    simp only [List.length_cons]
    omega

theorem mem_closure_of_reachable {edges : List (String × String)} {roots : List String}
    {s : String} (h : Reachable edges roots s) : s ∈ closure edges edges.length roots := by
  induction h with
  | root hr => exact subset_closure edges _ roots hr
  | step _ hedge ih => exact closed_closure edges roots _ hedge ih

theorem mem_closure_iff (edges : List (String × String)) (roots : List String) (s : String) :
    s ∈ closure edges edges.length roots ↔ Reachable edges roots s :=
  ⟨reachable_of_mem_closure _, mem_closure_of_reachable⟩

namespace TranslationUnit

/-- The symbols kept are those reachable from a root. -/
theorem mem_keptSymbols_iff (tu : TranslationUnit) (others : List String) (s : String) :
    s ∈ tu.keptSymbols others ↔ Reachable tu.referenceEdges (tu.roots ++ others) s := by
  unfold keptSymbols
  rw [List.mem_dedup]
  exact mem_closure_iff _ _ _

/-- A symbol is kept iff it is reachable from a root. -/
theorem keeps_iff (tu : TranslationUnit) (others : List String) (s : String) :
    tu.keeps others s = true ↔ Reachable tu.referenceEdges (tu.roots ++ others) s := by
  unfold keeps
  rw [decide_eq_true_iff]
  exact mem_keptSymbols_iff tu others s

/-- A symbol no edge points to is reachable only as a root. -/
theorem mem_roots_of_unreferenced {edges : List (String × String)} {roots : List String}
    {s : String} (hno : ∀ e ∈ edges, e.2 ≠ s) (h : Reachable edges roots s) : s ∈ roots := by
  cases h with
  | root hr => exact hr
  | step _ hedge => exact absurd rfl (hno _ hedge)

/-- A symbol nothing refers to is kept iff it is a root. -/
theorem keeps_iff_of_unreferenced (tu : TranslationUnit) (others : List String) (s : String)
    (h : tu.referrers s = []) : tu.keeps others s = true ↔ s ∈ tu.roots ++ others := by
  rw [keeps_iff]
  constructor
  · refine mem_roots_of_unreferenced ?_
    intro e he hes
    have : e.1 ∈ tu.referrers s :=
      List.mem_map.mpr ⟨e, List.mem_filter.mpr ⟨he, by simpa using hes⟩, rfl⟩
    rw [h] at this
    cases this
  · exact Reachable.root

end TranslationUnit

/-! ## Properties of `MPVKit.c` -/

open TranslationUnit

/-- C2: the translation unit consists of exactly two declarations.  The first
declares, with `extern` and without a body, the function
`vkCreateMetalSurfaceEXT`, which the unit does not define.  The second defines
the `static` variable `_flux_force_link_moltenvk` of pointer type, whose
initialiser denotes the address of the function the first declares, and which
carries the attribute `used`. -/
theorem MPVKit_c_declarations :
    ∃ f v : Decl, MPVKit_c = [f, v] ∧
      f.isFunction = true ∧ f.storage = .scExtern ∧ f.name = "vkCreateMetalSurfaceEXT" ∧
      f.isDefinition = false ∧ "vkCreateMetalSurfaceEXT" ∉ MPVKit_c.definedSymbols ∧
      MPVKit_c.declaredFunctions = ["vkCreateMetalSurfaceEXT"] ∧
      v.isFunction = false ∧ v.isDefinition = true ∧ v.storage = .scStatic ∧
      v.name = "_flux_force_link_moltenvk" ∧
      MPVKit_c.definedVariables = ["_flux_force_link_moltenvk"] ∧
      v.varType.map CType.isPointer = some true ∧
      v.initialiser.bind Expr.addressTarget = some f.name ∧
      v.isUsed = true :=
  ⟨vkCreateMetalSurfaceEXT, _flux_force_link_moltenvk, rfl, by decide⟩

/-- C3: in the dead-code-elimination model where a symbol is kept iff it is
reachable through references from a root, the variable
`_flux_force_link_moltenvk` and the symbol `vkCreateMetalSurfaceEXT` it refers
to are kept whatever the other roots are, although nothing refers to the
variable.  With the attribute `used` removed the unit has no root, nothing
refers to the variable, and the variable is kept only if it is among the
other roots. -/
theorem MPVKit_c_kept (others : List String) :
    MPVKit_c.keeps others "_flux_force_link_moltenvk" = true ∧
      MPVKit_c.keeps others "vkCreateMetalSurfaceEXT" = true ∧
      MPVKit_c.referrers "_flux_force_link_moltenvk" = [] ∧
      (MPVKit_c.withoutAttr .used).roots = [] ∧
      (MPVKit_c.withoutAttr .used).referrers "_flux_force_link_moltenvk" = [] ∧
      ((MPVKit_c.withoutAttr .used).keeps others "_flux_force_link_moltenvk" = true ↔
        "_flux_force_link_moltenvk" ∈ others) := by
  have hroot : Reachable MPVKit_c.referenceEdges (MPVKit_c.roots ++ others)
      "_flux_force_link_moltenvk" :=
    .root (List.mem_append_left _ (by decide))
  refine ⟨(keeps_iff _ _ _).mpr hroot, (keeps_iff _ _ _).mpr (.step hroot (by decide)),
    by decide, by decide, by decide, ?_⟩
  rw [keeps_iff_of_unreferenced _ _ _ (by decide)]
  have hr : (MPVKit_c.withoutAttr .used).roots = [] := by decide
  rw [hr, List.nil_append]

/-- C4: the unit defines no function; the only symbol it defines is
`_flux_force_link_moltenvk`, which has internal linkage; the set of
externally visible symbols the unit defines is empty. -/
theorem MPVKit_c_exports_nothing :
    MPVKit_c.definedFunctions = [] ∧
      MPVKit_c.definedSymbols = ["_flux_force_link_moltenvk"] ∧
      MPVKit_c.isInternalSym "_flux_force_link_moltenvk" = true ∧
      MPVKit_c.exportedSymbols = [] := by
  decide

/-- C5: the unit holds no function body and no statement, no call
expression, and the initialiser of `_flux_force_link_moltenvk`, which is
`(void*)vkCreateMetalSurfaceEXT`, is an address constant, so that no variable
of the unit is initialised by code run at program start. -/
theorem MPVKit_c_runs_no_code :
    MPVKit_c.definedFunctions = [] ∧
      MPVKit_c.stmts = [] ∧
      MPVKit_c.callCount = 0 ∧
      (MPVKit_c.lookup "_flux_force_link_moltenvk").bind Decl.initialiser =
        some (.cast (.ptr .void) (.ident "vkCreateMetalSurfaceEXT")) ∧
      Expr.isAddressConstant MPVKit_c
        (.cast (.ptr .void) (.ident "vkCreateMetalSurfaceEXT")) = true ∧
      MPVKit_c.dynamicInitialisers = [] := by
  refine ⟨by decide, rfl, by decide, rfl, by decide, by decide⟩

/-- C7: the unit declares `vkCreateMetalSurfaceEXT` with the prototype
`void(void)`, which differs from every prototype that has a parameter, such
as the one of the Vulkan headers.  The only use of the function in the unit
is one that takes its address: it is never called.  The variable
`_flux_force_link_moltenvk` is not used in any expression of the unit, so the
pointer is never read, dereferenced or called through; the unit has no call
expression at all. -/
theorem MPVKit_c_placeholder_prototype (real : FunSig) (h : real.params ≠ []) :
    MPVKit_c.prototypeOf "vkCreateMetalSurfaceEXT" = some ⟨.void, []⟩ ∧
      MPVKit_c.prototypeOf "vkCreateMetalSurfaceEXT" ≠ some real ∧
      MPVKit_c.usesOf "vkCreateMetalSurfaceEXT" = [.value] ∧
      MPVKit_c.usesOf "_flux_force_link_moltenvk" = [] ∧
      MPVKit_c.callCount = 0 := by
  have hp : MPVKit_c.prototypeOf "vkCreateMetalSurfaceEXT" = some ⟨.void, []⟩ := by decide
  refine ⟨hp, ?_, by decide, by decide, by decide⟩
  rw [hp]
  intro heq
  apply h
  rw [← Option.some.inj heq]

/-- Witness of C7 at the prototype of the Vulkan headers, which has four
parameters. -/
theorem MPVKit_c_placeholder_prototype_witness :
    vulkanPrototype.params ≠ [] ∧
      MPVKit_c.prototypeOf "vkCreateMetalSurfaceEXT" = some ⟨.void, []⟩ ∧
      MPVKit_c.prototypeOf "vkCreateMetalSurfaceEXT" ≠ some vulkanPrototype ∧
      MPVKit_c.usesOf "vkCreateMetalSurfaceEXT" = [.value] ∧
      MPVKit_c.usesOf "_flux_force_link_moltenvk" = [] ∧
      MPVKit_c.callCount = 0 :=
  ⟨by decide, MPVKit_c_placeholder_prototype vulkanPrototype (by decide)⟩

end Flux
